import Mathlib

/-
Verification of the credential-leasing core of the chess review bot.

The repository ships two implementations of the same engine, `bot.py`
(SQLite-backed) and `bot_v2.0.py` (Firestore-backed).  Their database-layer
functions have identical observable semantics, except for the scheduled
cleanup task, whose two variants are both modelled below
(`run_cleanup_v1` / `run_cleanup_v2`).

Modelling conventions:
- a database is a pair of lists (rows of `users`, rows of `credentials`);
- timestamps are integer seconds since the epoch, so Python's
  `timedelta(days=d)` becomes `d * 86400` seconds;
- an SQL `UPDATE ... WHERE key = ?` is a `List.map` that rewrites every
  row whose key matches (keys are unique in well-formed stores);
- Python truthiness of a nullable string column (`not user['assigned_username']`)
  holds for both `NULL` and the empty string, and is modelled accordingly.
-/

namespace ChessBot

/-- A row of the `credentials` table (`bot.py` `init_db`) / a document of the
`credentials` collection (`bot_v2.0.py`).  `status` ranges over the strings
"available" and "in_use" in the source. -/
structure Cred where
  username : String
  password : String
  status : String
  credential_expiry_date : Int
deriving DecidableEq, Repr

/-- A row of the `users` table / a document of the `users` collection. -/
structure User where
  user_id : Nat
  is_bot_use : Bool
  plan_expiry_date : Option Int
  assigned_username : Option String
  assigned_password : Option String
deriving DecidableEq, Repr

/-- The persistent store: the two tables. -/
structure State where
  users : List User
  creds : List Cred
deriving DecidableEq, Repr

/-- `get_user`: `SELECT * FROM users WHERE user_id = ?` (first row or none). -/
def get_user (s : State) (user_id : Nat) : Option User :=
  s.users.find? (fun u => u.user_id == user_id)

/-- `get_credential`: `SELECT * FROM credentials WHERE username = ?`. -/
def get_credential (s : State) (username : String) : Option Cred :=
  s.creds.find? (fun c => c.username == username)

/-- `add_or_get_user`: lazy upsert.  If no row exists, inserts a fresh row
(`is_bot_use` defaults to 0/false, the other columns to NULL) and returns it;
otherwise returns the existing row untouched. -/
def add_or_get_user (s : State) (user_id : Nat) : User × State :=
  match get_user s user_id with
  | some u => (u, s)
  | none =>
    let fresh : User :=
      { user_id := user_id, is_bot_use := false, plan_expiry_date := none,
        assigned_username := none, assigned_password := none }
    (fresh, { s with users := s.users ++ [fresh] })

/-- `add_credential_to_pool`: INSERT of an `available` credential expiring
`days` days from now; fails (returns `false`, no mutation) on a duplicate
username (UNIQUE constraint in v1, explicit pre-check in v2). -/
def add_credential_to_pool (s : State) (now : Int) (username password : String)
    (days : Int) : Bool × State :=
  if s.creds.any (fun c => c.username == username) then
    (false, s)
  else
    (true, { s with creds := s.creds ++
      [{ username := username, password := password, status := "available",
         credential_expiry_date := now + days * 86400 }] })

/-- `edit_credential_in_pool`: returns `false` without mutation when the
username is absent; otherwise rewrites `password` and
`credential_expiry_date = now + new_days` on the matching row, leaving
`status` (and every other row) untouched. -/
def edit_credential_in_pool (s : State) (now : Int) (username new_password : String)
    (new_days : Int) : Bool × State :=
  match get_credential s username with
  | none => (false, s)
  | some _ =>
    (true, { s with creds := s.creds.map (fun c =>
      if c.username == username then
        { c with password := new_password,
                 credential_expiry_date := now + new_days * 86400 }
      else c) })

/-- Head of `ORDER BY credential_expiry_date ASC LIMIT 1`: an element of the
list with minimal expiry (keeping the earliest such row), or `none` on the
empty list. -/
def pickMinExpiry : List Cred → Option Cred
  | [] => none
  | c :: rest =>
    match pickMinExpiry rest with
    | none => some c
    | some b => if c.credential_expiry_date ≤ b.credential_expiry_date then some c else some b

/-- `get_available_credential` (spec name `FindBestFit`): among rows with
`status = 'available'` and `credential_expiry_date >= now + required_days`,
the one with the soonest expiry, or `none`. -/
def get_available_credential (s : State) (now : Int) (required_days : Int) : Option Cred :=
  pickMinExpiry (s.creds.filter (fun c =>
    c.status == "available" && decide (now + required_days * 86400 ≤ c.credential_expiry_date)))

/-- `update_credential_status`: `UPDATE credentials SET status = ? WHERE username = ?`. -/
def update_credential_status (s : State) (username status : String) : State :=
  { s with creds := s.creds.map (fun c =>
      if c.username == username then { c with status := status } else c) }

/-- `assign_credential_to_user` (spec name `Assign`): writes the credential's
username and password onto the user's row, then flips the credential's status
to `in_use`. -/
def assign_credential_to_user (s : State) (user_id : Nat) (cred : Cred) : State :=
  let s1 : State := { s with users := s.users.map (fun u =>
    if u.user_id == user_id then
      { u with assigned_username := some cred.username,
               assigned_password := some cred.password }
    else u) }
  update_credential_status s1 cred.username "in_use"

/-- `grant_user_access`: sets `is_bot_use = 1` and
`plan_expiry_date = now + days` on the user's row. -/
def grant_user_access (s : State) (now : Int) (user_id : Nat) (days : Int) : State :=
  { s with users := s.users.map (fun u =>
      if u.user_id == user_id then
        { u with is_bot_use := true, plan_expiry_date := some (now + days * 86400) }
      else u) }

/-- `revoke_user_access` (spec name `RevokeAccess`): sets `is_bot_use = 0`
and `plan_expiry_date = NULL` on the user's row, touching nothing else. -/
def revoke_user_access (s : State) (user_id : Nat) : State :=
  { s with users := s.users.map (fun u =>
      if u.user_id == user_id then
        { u with is_bot_use := false, plan_expiry_date := none }
      else u) }

/-- `free_credential_from_user` (spec name `Free`): `None` (no mutation) when
the user record is missing or its `assigned_username` is falsy (NULL or the
empty string); otherwise clears both assigned columns, flips the credential
back to `available`, and returns the freed username. -/
def free_credential_from_user (s : State) (user_id : Nat) : Option String × State :=
  match get_user s user_id with
  | none => (none, s)
  | some u =>
    match u.assigned_username with
    | none => (none, s)
    | some un =>
      if un = "" then (none, s)
      else
        let s1 : State := { s with users := s.users.map (fun v =>
          if v.user_id == user_id then
            { v with assigned_username := none, assigned_password := none }
          else v) }
        (some un, update_credential_status s1 un "available")

/-- Outcome of the `/permitbotuse` handler, as reported to the admin. -/
inductive GrantResult where
  | userNotFound
  | outOfStock
  | granted (assignedUsername : String) (delaySeconds : Int)
deriving DecidableEq, Repr

/-- `permit_bot_use` (spec name `GrantAccess`): requires an existing user row;
fails out-of-stock when `get_available_credential` finds nothing; otherwise
assigns the found credential, grants access for `days`, and schedules the
cleanup task with a delay of `days * 86400` seconds. -/
def permit_bot_use (s : State) (now : Int) (user_id : Nat) (days : Int) :
    GrantResult × State :=
  match get_user s user_id with
  | none => (.userNotFound, s)
  | some _ =>
    match get_available_credential s now days with
    | none => (.outOfStock, s)
    | some cred =>
      let s1 := assign_credential_to_user s user_id cred
      let s2 := grant_user_access s1 now user_id days
      (.granted cred.username (days * 86400), s2)

/-- `free_credential` handler (spec name `FreeCredential`): frees the user's
credential and, only when one was actually freed, also revokes access. -/
def free_credential (s : State) (user_id : Nat) : Option String × State :=
  match free_credential_from_user s user_id with
  | (some un, s1) => (some un, revoke_user_access s1 user_id)
  | (none, s1) => (none, s1)

/-- Which operator-channel message the cleanup task sends. -/
inductive CleanupNote where
  | freedAndRevoked (username : String)
  | skipped
deriving DecidableEq, Repr

/-- `run_cleanup_task_after_delay` of `bot.py`: frees, and revokes only when a
credential was actually freed; the skipped branch just notifies the operator. -/
def run_cleanup_v1 (s : State) (user_id : Nat) : CleanupNote × State :=
  match free_credential_from_user s user_id with
  | (some un, s1) => (.freedAndRevoked un, revoke_user_access s1 user_id)
  | (none, s1) => (.skipped, s1)

/-- `run_cleanup_task_after_delay` of `bot_v2.0.py`: like v1, but the skipped
branch also calls `revoke_user_access` before notifying the operator. -/
def run_cleanup_v2 (s : State) (user_id : Nat) : CleanupNote × State :=
  match free_credential_from_user s user_id with
  | (some un, s1) => (.freedAndRevoked un, revoke_user_access s1 user_id)
  | (none, s1) => (.skipped, revoke_user_access s1 user_id)

/-- The store-mutating operations reachable from the bot's handlers. -/
inductive Op where
  | addCred (username password : String) (days : Int)
  | editCred (username password : String) (days : Int)
  | grantOp (user_id : Nat) (days : Int)
  | revokeOp (user_id : Nat)
  | freeOp (user_id : Nat)
  | cleanup1Op (user_id : Nat)
  | cleanup2Op (user_id : Nat)
  | upsertOp (user_id : Nat)
deriving DecidableEq, Repr

/-- One handler invocation at time `now`, projected to its store effect. -/
def step (now : Int) (s : State) : Op → State
  | .addCred un pw d => (add_credential_to_pool s now un pw d).2
  | .editCred un pw d => (edit_credential_in_pool s now un pw d).2
  | .grantOp uid d => (permit_bot_use s now uid d).2
  | .revokeOp uid => revoke_user_access s uid
  | .freeOp uid => (free_credential s uid).2
  | .cleanup1Op uid => (run_cleanup_v1 s uid).2
  | .cleanup2Op uid => (run_cleanup_v2 s uid).2
  | .upsertOp uid => (add_or_get_user s uid).2

/-- A sequence of timestamped handler invocations, run left to right. -/
def execTrace (s : State) : List (Int × Op) → State
  | [] => s
  | (t, op) :: rest => execTrace (step t s op) rest

/-- Whether executing `op` on `s` frees the credential named `un`
(i.e. reaches the freeing branch of `free_credential_from_user` through the
manual free handler or either cleanup task, for a holder of `un`). -/
def opFrees (s : State) (op : Op) (un : String) : Bool :=
  match op with
  | .freeOp uid | .cleanup1Op uid | .cleanup2Op uid =>
    match get_user s uid with
    | some u => u.assigned_username == some un && un != ""
    | none => false
  | _ => false

/-- No operation of the trace ever frees the credential named `un`. -/
def neverFrees (s : State) (un : String) : List (Int × Op) → Bool
  | [] => true
  | (t, op) :: rest => !opFrees s op un && neverFrees (step t s op) un rest

/-- The pool contains the username `un` and every row carrying it is `in_use`. -/
def CredHeld (s : State) (un : String) : Prop :=
  (∃ c ∈ s.creds, c.username = un) ∧
    ∀ c ∈ s.creds, c.username = un → c.status = "in_use"

/-- Keys are unique: no two user rows share a `user_id`, no two credential
rows share a `username` (the schema's PRIMARY KEY / UNIQUE constraints). -/
def Wf (s : State) : Prop :=
  (s.users.map (fun u => u.user_id)).Nodup ∧
    (s.creds.map (fun c => c.username)).Nodup

/-- At most one user row holds any given assigned username. -/
def AtMostOneHolder (s : State) : Prop :=
  ∀ u ∈ s.users, ∀ v ∈ s.users, u.assigned_username.isSome →
    u.assigned_username = v.assigned_username → u = v

/-- No user row holds the username of an `available` credential. -/
def AvailNoHolder (s : State) : Prop :=
  ∀ c ∈ s.creds, c.status = "available" →
    ∀ u ∈ s.users, u.assigned_username ≠ some c.username

/-- Every assigned username names a pooled credential whose status is `in_use`. -/
def HeldInUse (s : State) : Prop :=
  ∀ u ∈ s.users, u.assigned_username.isSome →
    ∃ c ∈ s.creds, some c.username = u.assigned_username ∧ c.status = "in_use"

/-- The no-double-booking invariant of the data model. -/
def Inv (s : State) : Prop :=
  Wf s ∧ AtMostOneHolder s ∧ AvailNoHolder s ∧ HeldInUse s

/-- C10: the lazy upsert inserts a fresh record (inactive, no credential)
only when no record exists, and returns an existing record with the store
completely unchanged. -/
theorem C10_add_or_get_user (s : State) (uid : Nat) :
    (∀ u, get_user s uid = some u → add_or_get_user s uid = (u, s)) ∧
    (get_user s uid = none →
      add_or_get_user s uid =
        ({ user_id := uid, is_bot_use := false, plan_expiry_date := none,
           assigned_username := none, assigned_password := none },
         { s with users := s.users ++
           [{ user_id := uid, is_bot_use := false, plan_expiry_date := none,
              assigned_username := none, assigned_password := none }] })) := by
  constructor
  · intro u hu
    simp [add_or_get_user, hu]
  · intro h
    simp [add_or_get_user, h]

/-- Witness for C10 at a concrete store. -/
theorem C10_witness :
    get_user ⟨[], []⟩ 7 = none ∧
    (add_or_get_user ⟨[], []⟩ 7).2.users =
      [{ user_id := 7, is_bot_use := false, plan_expiry_date := none,
         assigned_username := none, assigned_password := none }] :=
  ⟨rfl, by rw [(C10_add_or_get_user ⟨[], []⟩ 7).2 rfl]; rfl⟩

/-- C7: revoking access clears only the active flag and the plan expiry; the
assigned credential stays attached to the user and the credential table (in
particular every status) is untouched. -/
theorem C7_revoke_frame (s : State) (uid : Nat) :
    (revoke_user_access s uid).creds = s.creds ∧
    (∀ u ∈ s.users, u.user_id = uid →
      ({ u with is_bot_use := false, plan_expiry_date := none } : User) ∈
        (revoke_user_access s uid).users) ∧
    (∀ u ∈ s.users, u.user_id ≠ uid → u ∈ (revoke_user_access s uid).users) ∧
    (∀ v ∈ (revoke_user_access s uid).users, ∃ u ∈ s.users,
      v.user_id = u.user_id ∧ v.assigned_username = u.assigned_username ∧
        v.assigned_password = u.assigned_password) := by
  refine ⟨rfl, ?_, ?_, ?_⟩
  · intro u hu hid
    simp only [revoke_user_access, List.mem_map]
    exact ⟨u, hu, by simp [hid]⟩
  · intro u hu hid
    simp only [revoke_user_access, List.mem_map]
    exact ⟨u, hu, by simp [hid]⟩
  · intro v hv
    simp only [revoke_user_access, List.mem_map] at hv
    obtain ⟨u, hu, hv⟩ := hv
    by_cases h : u.user_id = uid
    · exact ⟨u, hu, by simp [← hv, h]⟩
    · exact ⟨u, hu, by simp [← hv, h]⟩

/-- Witness for C7 at a concrete store. -/
theorem C7_witness :
    ({ user_id := 3, is_bot_use := false, plan_expiry_date := none,
       assigned_username := some "a", assigned_password := some "p" } : User) ∈
      (revoke_user_access
        ⟨[{ user_id := 3, is_bot_use := true, plan_expiry_date := some 99,
            assigned_username := some "a", assigned_password := some "p" }],
         [{ username := "a", password := "p", status := "in_use",
            credential_expiry_date := 500 }]⟩ 3).users ∧
    (revoke_user_access
        ⟨[{ user_id := 3, is_bot_use := true, plan_expiry_date := some 99,
            assigned_username := some "a", assigned_password := some "p" }],
         [{ username := "a", password := "p", status := "in_use",
            credential_expiry_date := 500 }]⟩ 3).creds =
      [{ username := "a", password := "p", status := "in_use",
         credential_expiry_date := 500 }] :=
  ⟨(C7_revoke_frame
      ⟨[{ user_id := 3, is_bot_use := true, plan_expiry_date := some 99,
          assigned_username := some "a", assigned_password := some "p" }],
       [{ username := "a", password := "p", status := "in_use",
          credential_expiry_date := 500 }]⟩ 3).2.1
      { user_id := 3, is_bot_use := true, plan_expiry_date := some 99,
        assigned_username := some "a", assigned_password := some "p" }
      (by simp) rfl,
   (C7_revoke_frame
      ⟨[{ user_id := 3, is_bot_use := true, plan_expiry_date := some 99,
          assigned_username := some "a", assigned_password := some "p" }],
       [{ username := "a", password := "p", status := "in_use",
          credential_expiry_date := 500 }]⟩ 3).1⟩

/-- C8: editing an unknown username fails with `false` and mutates nothing;
editing an existing credential rewrites its password and expiry while keeping
its status (and every other row, and the whole user table) unchanged. -/
theorem C8_edit_credential (s : State) (now : Int) (un pw : String) (d : Int) :
    (get_credential s un = none → edit_credential_in_pool s now un pw d = (false, s)) ∧
    ((get_credential s un).isSome →
      (edit_credential_in_pool s now un pw d).1 = true ∧
      (edit_credential_in_pool s now un pw d).2.users = s.users ∧
      (∀ c ∈ s.creds, c.username = un →
        ({ c with password := pw, credential_expiry_date := now + d * 86400 } : Cred) ∈
          (edit_credential_in_pool s now un pw d).2.creds) ∧
      (∀ c ∈ s.creds, c.username ≠ un → c ∈ (edit_credential_in_pool s now un pw d).2.creds) ∧
      (∀ c2 ∈ (edit_credential_in_pool s now un pw d).2.creds, ∃ c ∈ s.creds,
        c2.username = c.username ∧ c2.status = c.status)) := by
  constructor
  · intro h
    simp [edit_credential_in_pool, h]
  · intro h
    obtain ⟨c0, hc0⟩ := Option.isSome_iff_exists.mp h
    refine ⟨by simp [edit_credential_in_pool, hc0], by simp [edit_credential_in_pool, hc0],
      ?_, ?_, ?_⟩
    · intro c hc hcu
      simp only [edit_credential_in_pool, hc0, List.mem_map]
      exact ⟨c, hc, by simp [hcu]⟩
    · intro c hc hcu
      simp only [edit_credential_in_pool, hc0, List.mem_map]
      exact ⟨c, hc, by simp [hcu]⟩
    · intro c2 hc2
      simp only [edit_credential_in_pool, hc0, List.mem_map] at hc2
      obtain ⟨c, hc, hc2⟩ := hc2
      by_cases hcu : c.username = un
      · exact ⟨c, hc, by simp [← hc2, hcu]⟩
      · exact ⟨c, hc, by simp [← hc2, hcu]⟩

/-- Witness for C8: editing an `in_use` credential keeps it `in_use`. -/
theorem C8_witness :
    (get_credential
      ⟨[], [{ username := "a", password := "old", status := "in_use",
              credential_expiry_date := 500 }]⟩ "a").isSome ∧
    ({ username := "a", password := "new", status := "in_use",
       credential_expiry_date := 0 + 2 * 86400 } : Cred) ∈
      (edit_credential_in_pool
        ⟨[], [{ username := "a", password := "old", status := "in_use",
                credential_expiry_date := 500 }]⟩ 0 "a" "new" 2).2.creds :=
  ⟨rfl,
   ((C8_edit_credential
      ⟨[], [{ username := "a", password := "old", status := "in_use",
              credential_expiry_date := 500 }]⟩ 0 "a" "new" 2).2 rfl).2.2.1
      { username := "a", password := "old", status := "in_use",
        credential_expiry_date := 500 } (by simp) rfl⟩

/-- C5: freeing is a no-op returning `None` when the user record is missing or
carries no (truthy) assigned username — and hence also on the second of two
consecutive calls — while freeing a held credential clears the user's
assignment, flips that credential back to `available`, and returns its
username. -/
theorem C5_free_idempotent (s : State) (uid : Nat) :
    ((get_user s uid = none ∨
        (∃ u, get_user s uid = some u ∧
          (u.assigned_username = none ∨ u.assigned_username = some ""))) →
      free_credential_from_user s uid = (none, s) ∧
      free_credential_from_user (free_credential_from_user s uid).2 uid = (none, s)) ∧
    (∀ u un, get_user s uid = some u → u.assigned_username = some un → un ≠ "" →
      (free_credential_from_user s uid).1 = some un ∧
      (∀ v ∈ (free_credential_from_user s uid).2.users, v.user_id = uid →
        v.assigned_username = none ∧ v.assigned_password = none) ∧
      (∀ c ∈ s.creds, c.username = un →
        ({ c with status := "available" } : Cred) ∈ (free_credential_from_user s uid).2.creds)) := by
  constructor
  · intro h
    have hnone : free_credential_from_user s uid = (none, s) := by
      rcases h with h | ⟨u, hu, h⟩
      · simp [free_credential_from_user, h]
      · rcases h with h | h <;> simp [free_credential_from_user, hu, h]
    exact ⟨hnone, by rw [hnone]; exact hnone⟩
  · intro u un hu hun hne
    have hres : free_credential_from_user s uid =
        (some un, update_credential_status
          { s with users := s.users.map (fun v =>
              if v.user_id == uid then
                { v with assigned_username := none, assigned_password := none }
              else v) } un "available") := by
      simp [free_credential_from_user, hu, hun, hne]
    refine ⟨by rw [hres], ?_, ?_⟩
    · intro v hv hvid
      rw [hres] at hv
      simp only [update_credential_status, List.mem_map] at hv
      obtain ⟨w, hw, hv⟩ := hv
      by_cases h : w.user_id = uid
      · simp [← hv, h]
      · rw [← hv] at hvid ⊢
        simp [h] at hvid ⊢
    · intro c hc hcu
      rw [hres]
      simp only [update_credential_status, List.mem_map]
      exact ⟨c, hc, by simp [hcu]⟩

/-- Witness for C5: double free on a user with no assignment, and a real free. -/
theorem C5_witness :
    (free_credential_from_user
        ⟨[{ user_id := 4, is_bot_use := false, plan_expiry_date := none,
            assigned_username := none, assigned_password := none }], []⟩ 4 = (none,
      ⟨[{ user_id := 4, is_bot_use := false, plan_expiry_date := none,
          assigned_username := none, assigned_password := none }], []⟩) ∧
     free_credential_from_user
       (free_credential_from_user
          ⟨[{ user_id := 4, is_bot_use := false, plan_expiry_date := none,
              assigned_username := none, assigned_password := none }], []⟩ 4).2 4 = (none,
      ⟨[{ user_id := 4, is_bot_use := false, plan_expiry_date := none,
          assigned_username := none, assigned_password := none }], []⟩)) ∧
    (free_credential_from_user
        ⟨[{ user_id := 5, is_bot_use := true, plan_expiry_date := some 9,
            assigned_username := some "a", assigned_password := some "p" }],
         [{ username := "a", password := "p", status := "in_use",
            credential_expiry_date := 500 }]⟩ 5).1 = some "a" :=
  ⟨(C5_free_idempotent
      ⟨[{ user_id := 4, is_bot_use := false, plan_expiry_date := none,
          assigned_username := none, assigned_password := none }], []⟩ 4).1
      (Or.inr ⟨{ user_id := 4, is_bot_use := false, plan_expiry_date := none,
                 assigned_username := none, assigned_password := none },
               rfl, Or.inl rfl⟩),
   ((C5_free_idempotent
      ⟨[{ user_id := 5, is_bot_use := true, plan_expiry_date := some 9,
          assigned_username := some "a", assigned_password := some "p" }],
       [{ username := "a", password := "p", status := "in_use",
          credential_expiry_date := 500 }]⟩ 5).2
      { user_id := 5, is_bot_use := true, plan_expiry_date := some 9,
        assigned_username := some "a", assigned_password := some "p" }
      "a" rfl rfl (by decide)).1⟩

/-- A free that is a no-op (`None`) leaves the store exactly as it was. -/
theorem free_none_state (s : State) (uid : Nat)
    (h : (free_credential_from_user s uid).1 = none) :
    free_credential_from_user s uid = (none, s) := by
  rcases hg : get_user s uid with _ | u
  · simp [free_credential_from_user, hg]
  · rcases ha : u.assigned_username with _ | un
    · simp [free_credential_from_user, hg, ha]
    · by_cases he : un = ""
      · simp [free_credential_from_user, hg, ha, he]
      · simp [free_credential_from_user, hg, ha, he] at h

/-- After a successful free, the freed user's row carries neither the assigned
username nor the assigned password. -/
theorem free_result_cleared (s : State) (uid : Nat) (un : String) (s2 : State)
    (hfr : free_credential_from_user s uid = (some un, s2)) :
    ∀ v ∈ s2.users, v.user_id = uid →
      v.assigned_username = none ∧ v.assigned_password = none := by
  rcases hg : get_user s uid with _ | u
  · simp [free_credential_from_user, hg] at hfr
  · rcases ha : u.assigned_username with _ | un2
    · simp [free_credential_from_user, hg, ha] at hfr
    · by_cases he : un2 = ""
      · simp [free_credential_from_user, hg, ha, he] at hfr
      · have hstep : free_credential_from_user s uid =
            (some un2, update_credential_status
              { s with users := s.users.map (fun v =>
                  if v.user_id == uid then
                    { v with assigned_username := none, assigned_password := none }
                  else v) } un2 "available") := by
          simp [free_credential_from_user, hg, ha, he]
        rw [hstep, Prod.mk.injEq] at hfr
        obtain ⟨h1, h2⟩ := hfr
        subst h2
        intro v hv hvid
        simp only [update_credential_status, List.mem_map] at hv
        obtain ⟨w, hw, hv⟩ := hv
        by_cases hwid : w.user_id = uid
        · simp [← hv, hwid]
        · rw [← hv] at hvid
          simp [hwid] at hvid

/-- Revoking afterwards cannot reattach an assignment. -/
theorem cleared_after_revoke (s2 : State) (uid : Nat)
    (core : ∀ v ∈ s2.users, v.user_id = uid →
      v.assigned_username = none ∧ v.assigned_password = none) :
    ∀ v ∈ (revoke_user_access s2 uid).users, v.user_id = uid →
      v.assigned_username = none ∧ v.assigned_password = none := by
  intro v hv hvid
  simp only [revoke_user_access, List.mem_map] at hv
  obtain ⟨w, hw, hv⟩ := hv
  by_cases hwid : w.user_id = uid
  · have hc := core w hw hwid
    rw [← hv]
    simp [hwid, hc.1, hc.2]
  · rw [← hv] at hvid
    simp [hwid] at hvid

/-- C9: every successful free — the raw pool operation, the manual admin
handler, and both versions of the scheduled cleanup — clears both the
assigned username and the stored assigned password from the user's record. -/
theorem C9_free_clears_both_fields (s : State) (uid : Nat) (un : String)
    (h : (free_credential_from_user s uid).1 = some un) :
    (∀ v ∈ (free_credential_from_user s uid).2.users, v.user_id = uid →
      v.assigned_username = none ∧ v.assigned_password = none) ∧
    (∀ v ∈ (free_credential s uid).2.users, v.user_id = uid →
      v.assigned_username = none ∧ v.assigned_password = none) ∧
    (∀ v ∈ (run_cleanup_v1 s uid).2.users, v.user_id = uid →
      v.assigned_username = none ∧ v.assigned_password = none) ∧
    (∀ v ∈ (run_cleanup_v2 s uid).2.users, v.user_id = uid →
      v.assigned_username = none ∧ v.assigned_password = none) := by
  rcases hfr : free_credential_from_user s uid with ⟨o, s2⟩
  rw [hfr] at h
  simp only at h
  subst h
  have core := free_result_cleared s uid un s2 hfr
  refine ⟨core, ?_, ?_, ?_⟩
  · have : free_credential s uid = (some un, revoke_user_access s2 uid) := by
      simp [free_credential, hfr]
    rw [this]
    exact cleared_after_revoke s2 uid core
  · have : run_cleanup_v1 s uid = (.freedAndRevoked un, revoke_user_access s2 uid) := by
      simp [run_cleanup_v1, hfr]
    rw [this]
    exact cleared_after_revoke s2 uid core
  · have : run_cleanup_v2 s uid = (.freedAndRevoked un, revoke_user_access s2 uid) := by
      simp [run_cleanup_v2, hfr]
    rw [this]
    exact cleared_after_revoke s2 uid core

/-- Witness for C9 on a one-user, one-credential store. -/
theorem C9_witness :
    (free_credential_from_user
        ⟨[{ user_id := 5, is_bot_use := true, plan_expiry_date := some 9,
            assigned_username := some "a", assigned_password := some "p" }],
         [{ username := "a", password := "p", status := "in_use",
            credential_expiry_date := 500 }]⟩ 5).1 = some "a" ∧
    (∀ v ∈ (run_cleanup_v2
        ⟨[{ user_id := 5, is_bot_use := true, plan_expiry_date := some 9,
            assigned_username := some "a", assigned_password := some "p" }],
         [{ username := "a", password := "p", status := "in_use",
            credential_expiry_date := 500 }]⟩ 5).2.users, v.user_id = 5 →
      v.assigned_username = none ∧ v.assigned_password = none) :=
  ⟨rfl,
   (C9_free_clears_both_fields
      ⟨[{ user_id := 5, is_bot_use := true, plan_expiry_date := some 9,
          assigned_username := some "a", assigned_password := some "p" }],
       [{ username := "a", password := "p", status := "in_use",
          credential_expiry_date := 500 }]⟩ 5 "a" rfl).2.2.2⟩

/-- C6: the manual `/freecredential` handler revokes access (clears the
active flag and the plan expiry) exactly when a credential was actually
freed; when the user held nothing it returns `None` and leaves the entire
store unchanged, revoking nothing. -/
theorem C6_free_handler_revokes (s : State) (uid : Nat) :
    (∀ un, (free_credential_from_user s uid).1 = some un →
      (free_credential s uid).1 = some un ∧
      ∀ v ∈ (free_credential s uid).2.users, v.user_id = uid →
        v.is_bot_use = false ∧ v.plan_expiry_date = none) ∧
    ((free_credential_from_user s uid).1 = none → free_credential s uid = (none, s)) := by
  constructor
  · intro un h
    rcases hfr : free_credential_from_user s uid with ⟨o, s2⟩
    rw [hfr] at h
    simp only at h
    subst h
    have heq : free_credential s uid = (some un, revoke_user_access s2 uid) := by
      simp [free_credential, hfr]
    rw [heq]
    refine ⟨rfl, ?_⟩
    intro v hv hvid
    simp only [revoke_user_access, List.mem_map] at hv
    obtain ⟨w, hw, hv⟩ := hv
    by_cases hwid : w.user_id = uid
    · simp [← hv, hwid]
    · rw [← hv] at hvid
      simp [hwid] at hvid
  · intro h
    have := free_none_state s uid h
    simp [free_credential, this]

/-- Witness for C6: a successful manual free leaves the user inactive. -/
theorem C6_witness :
    (free_credential_from_user
        ⟨[{ user_id := 5, is_bot_use := true, plan_expiry_date := some 9,
            assigned_username := some "a", assigned_password := some "p" }],
         [{ username := "a", password := "p", status := "in_use",
            credential_expiry_date := 500 }]⟩ 5).1 = some "a" ∧
    (∀ v ∈ (free_credential
        ⟨[{ user_id := 5, is_bot_use := true, plan_expiry_date := some 9,
            assigned_username := some "a", assigned_password := some "p" }],
         [{ username := "a", password := "p", status := "in_use",
            credential_expiry_date := 500 }]⟩ 5).2.users, v.user_id = 5 →
      v.is_bot_use = false ∧ v.plan_expiry_date = none) :=
  ⟨rfl,
   ((C6_free_handler_revokes
      ⟨[{ user_id := 5, is_bot_use := true, plan_expiry_date := some 9,
          assigned_username := some "a", assigned_password := some "p" }],
       [{ username := "a", password := "p", status := "in_use",
          credential_expiry_date := 500 }]⟩ 5).1 "a" rfl).2⟩

/-- C4: `permit_bot_use` fails (store untouched) when the user record is
missing or no credential fits; on success it assigns the best-fit credential,
then activates the user with `plan_expiry = now + days`, and reports a
cleanup delay of exactly `days * 86400` seconds.  The success state is
literally `grant_user_access` applied after `assign_credential_to_user`,
fixing the order of the two effects. -/
theorem C4_permit_bot_use (s : State) (now : Int) (uid : Nat) (days : Int) :
    (get_user s uid = none → permit_bot_use s now uid days = (.userNotFound, s)) ∧
    ((get_user s uid).isSome → get_available_credential s now days = none →
      permit_bot_use s now uid days = (.outOfStock, s)) ∧
    (∀ cred, (get_user s uid).isSome → get_available_credential s now days = some cred →
      permit_bot_use s now uid days =
        (.granted cred.username (days * 86400),
         grant_user_access (assign_credential_to_user s uid cred) now uid days) ∧
      (∀ v ∈ (permit_bot_use s now uid days).2.users, v.user_id = uid →
        v.is_bot_use = true ∧ v.plan_expiry_date = some (now + days * 86400) ∧
        v.assigned_username = some cred.username ∧
        v.assigned_password = some cred.password) ∧
      (∀ c ∈ (permit_bot_use s now uid days).2.creds, c.username = cred.username →
        c.status = "in_use")) := by
  refine ⟨?_, ?_, ?_⟩
  · intro h
    simp [permit_bot_use, h]
  · intro hu hc
    obtain ⟨u0, hu0⟩ := Option.isSome_iff_exists.mp hu
    simp [permit_bot_use, hu0, hc]
  · intro cred hu hc
    obtain ⟨u0, hu0⟩ := Option.isSome_iff_exists.mp hu
    have heq : permit_bot_use s now uid days =
        (.granted cred.username (days * 86400),
         grant_user_access (assign_credential_to_user s uid cred) now uid days) := by
      simp [permit_bot_use, hu0, hc]
    refine ⟨heq, ?_, ?_⟩
    · intro v hv hvid
      rw [heq] at hv
      simp only [grant_user_access, assign_credential_to_user, update_credential_status,
        List.mem_map] at hv
      obtain ⟨w, hw, hv⟩ := hv
      obtain ⟨w0, hw0, hw⟩ := hw
      by_cases hw0id : w0.user_id = uid
      · rw [← hv, ← hw]
        simp [hw0id]
      · rw [← hw] at hv
        rw [← hv] at hvid
        simp [hw0id] at hvid
    · intro c hcc hcu
      rw [heq] at hcc
      simp only [grant_user_access, assign_credential_to_user, update_credential_status,
        List.mem_map] at hcc
      obtain ⟨c0, hc0, hcc⟩ := hcc
      by_cases hc0u : c0.username = cred.username
      · rw [← hcc]
        simp [hc0u]
      · rw [← hcc] at hcu
        simp [hc0u] at hcu

/-- Witness for C4: granting on a two-credential pool assigns the tighter
fit and schedules a `5 * 86400` second reclaim. -/
theorem C4_witness :
    (get_user
      ⟨[{ user_id := 1, is_bot_use := false, plan_expiry_date := none,
          assigned_username := none, assigned_password := none }],
       [{ username := "A", password := "pa", status := "available",
          credential_expiry_date := 864000 },
        { username := "B", password := "pb", status := "available",
          credential_expiry_date := 1728000 }]⟩ 1).isSome ∧
    get_available_credential
      ⟨[{ user_id := 1, is_bot_use := false, plan_expiry_date := none,
          assigned_username := none, assigned_password := none }],
       [{ username := "A", password := "pa", status := "available",
          credential_expiry_date := 864000 },
        { username := "B", password := "pb", status := "available",
          credential_expiry_date := 1728000 }]⟩ 0 5 =
      some { username := "A", password := "pa", status := "available",
             credential_expiry_date := 864000 } ∧
    (permit_bot_use
      ⟨[{ user_id := 1, is_bot_use := false, plan_expiry_date := none,
          assigned_username := none, assigned_password := none }],
       [{ username := "A", password := "pa", status := "available",
          credential_expiry_date := 864000 },
        { username := "B", password := "pb", status := "available",
          credential_expiry_date := 1728000 }]⟩ 0 1 5).1 =
      .granted "A" (5 * 86400) :=
  ⟨rfl, by decide,
   by rw [((C4_permit_bot_use
      ⟨[{ user_id := 1, is_bot_use := false, plan_expiry_date := none,
          assigned_username := none, assigned_password := none }],
       [{ username := "A", password := "pa", status := "available",
          credential_expiry_date := 864000 },
        { username := "B", password := "pb", status := "available",
          credential_expiry_date := 1728000 }]⟩ 0 1 5).2.2
      { username := "A", password := "pa", status := "available",
        credential_expiry_date := 864000 } rfl (by decide)).1]⟩

/-- C2 counterexample: in `bot.py`, when the scheduled cleanup finds no
credential to free it does not clear the active flag — the user stays
`is_bot_use = true`. -/
theorem C2_counterexample :
    (run_cleanup_v1
      ⟨[{ user_id := 5, is_bot_use := true, plan_expiry_date := some 1000,
          assigned_username := none, assigned_password := none }], []⟩ 5).1 =
        CleanupNote.skipped ∧
    ∃ v ∈ (run_cleanup_v1
      ⟨[{ user_id := 5, is_bot_use := true, plan_expiry_date := some 1000,
          assigned_username := none, assigned_password := none }], []⟩ 5).2.users,
      v.user_id = 5 ∧ v.is_bot_use = true := by
  decide

/-- C2 (amended): in `bot_v2.0.py` the scheduled cleanup defensively clears
the user's active flag (and plan expiry) even when nothing was freed, while
in `bot.py` the skipped branch only notifies the operator and leaves the
store entirely unchanged. -/
theorem C2_cleanup_skipped (s : State) (uid : Nat) :
    ((run_cleanup_v2 s uid).1 = CleanupNote.skipped →
      ∀ v ∈ (run_cleanup_v2 s uid).2.users, v.user_id = uid →
        v.is_bot_use = false ∧ v.plan_expiry_date = none) ∧
    ((run_cleanup_v1 s uid).1 = CleanupNote.skipped → (run_cleanup_v1 s uid).2 = s) := by
  constructor
  · intro h
    rcases hfr : free_credential_from_user s uid with ⟨o, s2⟩
    rcases o with _ | un
    · have hs2 : s2 = s := by
        have := free_none_state s uid (by rw [hfr])
        rw [hfr] at this
        exact (Prod.mk.injEq _ _ _ _).mp this |>.2
      have heq : run_cleanup_v2 s uid = (.skipped, revoke_user_access s2 uid) := by
        simp [run_cleanup_v2, hfr]
      rw [heq]
      intro v hv hvid
      simp only [revoke_user_access, List.mem_map] at hv
      obtain ⟨w, hw, hv⟩ := hv
      by_cases hwid : w.user_id = uid
      · simp [← hv, hwid]
      · rw [← hv] at hvid
        simp [hwid] at hvid
    · have heq : run_cleanup_v2 s uid = (.freedAndRevoked un, revoke_user_access s2 uid) := by
        simp [run_cleanup_v2, hfr]
      rw [heq] at h
      simp at h
  · intro h
    rcases hfr : free_credential_from_user s uid with ⟨o, s2⟩
    rcases o with _ | un
    · have hs2 : s2 = s := by
        have := free_none_state s uid (by rw [hfr])
        rw [hfr] at this
        exact (Prod.mk.injEq _ _ _ _).mp this |>.2
      simp [run_cleanup_v1, hfr, hs2]
    · have heq : run_cleanup_v1 s uid = (.freedAndRevoked un, revoke_user_access s2 uid) := by
        simp [run_cleanup_v1, hfr]
      rw [heq] at h
      simp at h

/-- Witness for the amended C2 on a concrete active user with no credential. -/
theorem C2_witness :
    (run_cleanup_v2
      ⟨[{ user_id := 5, is_bot_use := true, plan_expiry_date := some 1000,
          assigned_username := none, assigned_password := none }], []⟩ 5).1 =
        CleanupNote.skipped ∧
    (∀ v ∈ (run_cleanup_v2
      ⟨[{ user_id := 5, is_bot_use := true, plan_expiry_date := some 1000,
          assigned_username := none, assigned_password := none }], []⟩ 5).2.users,
      v.user_id = 5 → v.is_bot_use = false ∧ v.plan_expiry_date = none) :=
  ⟨rfl,
   (C2_cleanup_skipped
      ⟨[{ user_id := 5, is_bot_use := true, plan_expiry_date := some 1000,
          assigned_username := none, assigned_password := none }], []⟩ 5).1 rfl⟩

/-- `pickMinExpiry` only returns elements of its input list. -/
theorem pickMinExpiry_mem : ∀ {l : List Cred} {c : Cred},
    pickMinExpiry l = some c → c ∈ l := by
  intro l
  induction l with
  | nil => intro c h; simp [pickMinExpiry] at h
  | cons x xs ih =>
    intro c h
    simp only [pickMinExpiry] at h
    rcases hp : pickMinExpiry xs with _ | b
    · rw [hp] at h
      simp at h
      simp [← h]
    · rw [hp] at h
      by_cases hle : x.credential_expiry_date ≤ b.credential_expiry_date
      · simp [hle] at h
        simp [← h]
      · simp [hle] at h
        exact List.mem_cons_of_mem x (h ▸ ih hp)

/-- `pickMinExpiry` returns `none` exactly on the empty list. -/
theorem pickMinExpiry_eq_none : ∀ {l : List Cred}, pickMinExpiry l = none ↔ l = [] := by
  intro l
  cases l with
  | nil => simp [pickMinExpiry]
  | cons x xs =>
    simp only [pickMinExpiry]
    rcases hp : pickMinExpiry xs with _ | b
    · simp
    · by_cases hle : x.credential_expiry_date ≤ b.credential_expiry_date
      · simp [hle]
      · simp [hle]

/-- `pickMinExpiry` returns an element with minimal expiry. -/
theorem pickMinExpiry_le : ∀ {l : List Cred} {c : Cred},
    pickMinExpiry l = some c →
    ∀ b ∈ l, c.credential_expiry_date ≤ b.credential_expiry_date := by
  intro l
  induction l with
  | nil => intro c h; simp [pickMinExpiry] at h
  | cons x xs ih =>
    intro c h b hb
    simp only [pickMinExpiry] at h
    rcases hp : pickMinExpiry xs with _ | m
    · rw [hp] at h
      simp at h
      have hxs : xs = [] := pickMinExpiry_eq_none.mp hp
      subst hxs
      simp at hb
      rw [← h, hb]
    · rw [hp] at h
      by_cases hle : x.credential_expiry_date ≤ m.credential_expiry_date
      · simp [hle] at h
        rcases List.mem_cons.mp hb with hbx | hbx
        · rw [← h, hbx]
        · exact le_trans (h ▸ hle) (ih hp b hbx)
      · simp [hle] at h
        rcases List.mem_cons.mp hb with hbx | hbx
        · rw [← h, hbx]
          exact le_of_lt (lt_of_not_le hle)
        · rw [← h]
          exact ih hp b hbx

/-- C1: the best-fit lookup returns a pooled credential that is `available`
and survives `now + d` days, of minimal expiry among all such credentials,
and returns `none` exactly when no credential satisfies the constraint. -/
theorem C1_find_best_fit (s : State) (now d : Int) :
    (∀ c, get_available_credential s now d = some c →
      c ∈ s.creds ∧ c.status = "available" ∧
      now + d * 86400 ≤ c.credential_expiry_date ∧
      ∀ c2 ∈ s.creds, c2.status = "available" →
        now + d * 86400 ≤ c2.credential_expiry_date →
        c.credential_expiry_date ≤ c2.credential_expiry_date) ∧
    (get_available_credential s now d = none ↔
      ∀ c2 ∈ s.creds, c2.status = "available" →
        ¬ now + d * 86400 ≤ c2.credential_expiry_date) := by
  constructor
  · intro c h
    unfold get_available_credential at h
    have hm := pickMinExpiry_mem h
    rw [List.mem_filter] at hm
    obtain ⟨hmem, hp⟩ := hm
    simp only [Bool.and_eq_true, beq_iff_eq, decide_eq_true_eq] at hp
    refine ⟨hmem, hp.1, hp.2, ?_⟩
    intro c2 h2 hs2 he2
    exact pickMinExpiry_le h c2 (List.mem_filter.mpr ⟨h2, by simp [hs2, he2]⟩)
  · unfold get_available_credential
    rw [pickMinExpiry_eq_none, List.filter_eq_nil_iff]
    constructor
    · intro h c2 h2 hs2
      have := h c2 h2
      simp only [Bool.and_eq_true, beq_iff_eq, decide_eq_true_eq, not_and] at this
      exact this hs2
    · intro h c2 h2
      simp only [Bool.and_eq_true, beq_iff_eq, decide_eq_true_eq, not_and]
      exact h c2 h2

/-- Witness for C1: with A expiring in 10 days and B in 20, a 5-day request
returns A (the tightest fit), and a pool of only expired credentials yields
`none`. -/
theorem C1_witness :
    get_available_credential
      ⟨[], [{ username := "A", password := "pa", status := "available",
              credential_expiry_date := 864000 },
            { username := "B", password := "pb", status := "available",
              credential_expiry_date := 1728000 }]⟩ 0 5 =
      some { username := "A", password := "pa", status := "available",
             credential_expiry_date := 864000 } ∧
    (864000 : Int) ≤ 1728000 ∧
    get_available_credential
      ⟨[], [{ username := "C", password := "pc", status := "available",
              credential_expiry_date := 100 }]⟩ 0 5 = none :=
  ⟨by decide,
   ((C1_find_best_fit
      ⟨[], [{ username := "A", password := "pa", status := "available",
              credential_expiry_date := 864000 },
            { username := "B", password := "pb", status := "available",
              credential_expiry_date := 1728000 }]⟩ 0 5).1
      { username := "A", password := "pa", status := "available",
        credential_expiry_date := 864000 } (by decide)).2.2.2
      { username := "B", password := "pb", status := "available",
        credential_expiry_date := 1728000 } (by decide) rfl (by decide),
   (C1_find_best_fit
      ⟨[], [{ username := "C", password := "pc", status := "available",
              credential_expiry_date := 100 }]⟩ 0 5).2.mpr (by decide)⟩

/-- In a list with pairwise distinct keys, equal keys force equal elements. -/
theorem nodupKey {α β : Type} (f : α → β) :
    ∀ l : List α, (l.map f).Nodup → ∀ a ∈ l, ∀ b ∈ l, f a = f b → a = b := by
  intro l
  induction l with
  | nil => intro _ a ha; simp at ha
  | cons x xs ih =>
    intro hnd a ha b hb hab
    rw [List.map_cons, List.nodup_cons] at hnd
    obtain ⟨hx, hnd⟩ := hnd
    rcases List.mem_cons.mp ha with ha1 | ha1
    · rcases List.mem_cons.mp hb with hb1 | hb1
      · rw [ha1, hb1]
      · subst ha1
        have : f a ∈ xs.map f := by rw [hab]; exact List.mem_map.mpr ⟨b, hb1, rfl⟩
        exact absurd this hx
    · rcases List.mem_cons.mp hb with hb1 | hb1
      · subst hb1
        have : f b ∈ xs.map f := by rw [← hab]; exact List.mem_map.mpr ⟨a, ha1, rfl⟩
        exact absurd this hx
      · exact ih hnd a ha1 b hb1 hab

/-- Mapping a key-preserving function over a list leaves the key list as is. -/
theorem map_key_eq {α β : Type} (key : α → β) (g : α → α)
    (hg : ∀ a, key (g a) = key a) :
    ∀ l : List α, (l.map g).map key = l.map key := by
  intro l
  induction l with
  | nil => rfl
  | cons x xs ih => simp [hg, ih]

/-- Any rewrite of the user table that preserves `user_id` and
`assigned_username` on every row preserves the leasing invariant. -/
theorem inv_users_map (s : State) (e : User → User)
    (hid : ∀ u, (e u).user_id = u.user_id)
    (hass : ∀ u, (e u).assigned_username = u.assigned_username)
    (hs : Inv s) : Inv { s with users := s.users.map e } := by
  obtain ⟨⟨hwu, hwc⟩, hone, havail, hheld⟩ := hs
  refine ⟨⟨?_, hwc⟩, ?_, ?_, ?_⟩
  · rw [map_key_eq (fun u => u.user_id) e hid s.users]
    exact hwu
  · intro u' hu' v' hv' hsome heq
    obtain ⟨u, hu, hue⟩ := List.mem_map.mp hu'
    obtain ⟨v, hv, hve⟩ := List.mem_map.mp hv'
    have h1 : u'.assigned_username = u.assigned_username := by rw [← hue, hass]
    have h2 : v'.assigned_username = v.assigned_username := by rw [← hve, hass]
    have hus : u.assigned_username.isSome := by rw [← h1]; exact hsome
    have huv : u.assigned_username = v.assigned_username := by rw [← h1, ← h2]; exact heq
    have := hone u hu v hv hus huv
    rw [← hue, ← hve, this]
  · intro c hc hcs u' hu'
    obtain ⟨u, hu, hue⟩ := List.mem_map.mp hu'
    have h1 : u'.assigned_username = u.assigned_username := by rw [← hue, hass]
    rw [h1]
    exact havail c hc hcs u hu
  · intro u' hu' hsome
    obtain ⟨u, hu, hue⟩ := List.mem_map.mp hu'
    have h1 : u'.assigned_username = u.assigned_username := by rw [← hue, hass]
    rw [h1] at hsome ⊢
    exact hheld u hu hsome

/-- Any rewrite of the credential table that preserves `username` and
`status` on every row preserves the leasing invariant. -/
theorem inv_creds_map (s : State) (k : Cred → Cred)
    (hun : ∀ c, (k c).username = c.username)
    (hst : ∀ c, (k c).status = c.status)
    (hs : Inv s) : Inv { s with creds := s.creds.map k } := by
  obtain ⟨⟨hwu, hwc⟩, hone, havail, hheld⟩ := hs
  refine ⟨⟨hwu, ?_⟩, hone, ?_, ?_⟩
  · rw [map_key_eq (fun c => c.username) k hun s.creds]
    exact hwc
  · intro c' hc' hcs u hu
    obtain ⟨c, hc, hck⟩ := List.mem_map.mp hc'
    have h1 : c'.username = c.username := by rw [← hck, hun]
    have h2 : c'.status = c.status := by rw [← hck, hst]
    rw [h1]
    exact havail c hc (by rw [← h2]; exact hcs) u hu
  · intro u hu hsome
    obtain ⟨c, hc, hcu, hcs⟩ := hheld u hu hsome
    exact ⟨k c, List.mem_map.mpr ⟨c, hc, rfl⟩,
      by rw [hun]; exact hcu, by rw [hst]; exact hcs⟩

/-- Assigning an available pooled credential preserves the leasing
invariant: the target user becomes its unique holder. -/
theorem inv_assign (s : State) (uid : Nat) (cred : Cred)
    (hmem : cred ∈ s.creds) (hav : cred.status = "available")
    (hs : Inv s) : Inv (assign_credential_to_user s uid cred) := by
  obtain ⟨⟨hwu, hwc⟩, hone, havail, hheld⟩ := hs
  have hstate : assign_credential_to_user s uid cred =
      { users := s.users.map (fun u =>
          if u.user_id == uid then
            { u with assigned_username := some cred.username,
                     assigned_password := some cred.password }
          else u),
        creds := s.creds.map (fun c =>
          if c.username == cred.username then { c with status := "in_use" } else c) } := by
    simp [assign_credential_to_user, update_credential_status]
  rw [hstate]
  refine ⟨⟨?_, ?_⟩, ?_, ?_, ?_⟩
  · rw [map_key_eq (fun u => u.user_id)
      (fun u => if u.user_id == uid then
        { u with assigned_username := some cred.username,
                 assigned_password := some cred.password } else u)
      (fun u => by by_cases h : u.user_id = uid <;> simp [h]) s.users]
    exact hwu
  · rw [map_key_eq (fun c => c.username)
      (fun c => if c.username == cred.username then { c with status := "in_use" } else c)
      (fun c => by by_cases h : c.username = cred.username <;> simp [h]) s.creds]
    exact hwc
  · intro u' hu' v' hv' hsome heq
    obtain ⟨u, hu, hue⟩ := List.mem_map.mp hu'
    obtain ⟨v, hv, hve⟩ := List.mem_map.mp hv'
    by_cases hui : u.user_id = uid
    · by_cases hvi : v.user_id = uid
      · have huv : u = v := nodupKey (fun u => u.user_id) s.users hwu u hu v hv
          (by show u.user_id = v.user_id; rw [hui, hvi])
        rw [← hue, ← hve, huv]
      · have hu'a : u'.assigned_username = some cred.username := by rw [← hue]; simp [hui]
        have hv'v : v' = v := by rw [← hve]; simp [hvi]
        have : v.assigned_username = some cred.username := by rw [← hv'v, ← heq, hu'a]
        exact absurd this (havail cred hmem hav v hv)
    · by_cases hvi : v.user_id = uid
      · have hv'a : v'.assigned_username = some cred.username := by rw [← hve]; simp [hvi]
        have hu'u : u' = u := by rw [← hue]; simp [hui]
        have : u.assigned_username = some cred.username := by rw [← hu'u, heq, hv'a]
        exact absurd this (havail cred hmem hav u hu)
      · have hu'u : u' = u := by rw [← hue]; simp [hui]
        have hv'v : v' = v := by rw [← hve]; simp [hvi]
        rw [hu'u, hv'v]
        exact hone u hu v hv (by rw [← hu'u]; exact hsome)
          (by rw [← hu'u, ← hv'v]; exact heq)
  · intro c' hc' hcs u' hu'
    obtain ⟨c, hc, hck⟩ := List.mem_map.mp hc'
    obtain ⟨u, hu, hue⟩ := List.mem_map.mp hu'
    by_cases hcu : c.username = cred.username
    · have : c'.status = "in_use" := by rw [← hck]; simp [hcu]
      rw [this] at hcs
      exact absurd hcs (by decide)
    · have hc'c : c' = c := by rw [← hck]; simp [hcu]
      have hcs2 : c.status = "available" := by rw [← hc'c]; exact hcs
      rw [hc'c]
      by_cases hui : u.user_id = uid
      · have : u'.assigned_username = some cred.username := by rw [← hue]; simp [hui]
        rw [this]
        simp only [ne_eq, Option.some.injEq]
        exact fun hh => hcu hh.symm
      · have : u' = u := by rw [← hue]; simp [hui]
        rw [this]
        exact havail c hc hcs2 u hu
  · intro u' hu' hsome
    obtain ⟨u, hu, hue⟩ := List.mem_map.mp hu'
    by_cases hui : u.user_id = uid
    · have ha : u'.assigned_username = some cred.username := by rw [← hue]; simp [hui]
      refine ⟨{ cred with status := "in_use" },
        List.mem_map.mpr ⟨cred, hmem, by simp⟩, ?_, rfl⟩
      rw [ha]
    · have hu'u : u' = u := by rw [← hue]; simp [hui]
      rw [hu'u] at hsome ⊢
      obtain ⟨c, hc, hcu, hcs⟩ := hheld u hu hsome
      by_cases hcc : c.username = cred.username
      · exact ⟨{ c with status := "in_use" },
          List.mem_map.mpr ⟨c, hc, by simp [hcc]⟩, hcu, rfl⟩
      · exact ⟨c, List.mem_map.mpr ⟨c, hc, by simp [hcc]⟩, hcu, hcs⟩

/-- Freeing a user's credential preserves the leasing invariant. -/
theorem inv_free_core (s : State) (uid : Nat) (hs : Inv s) :
    Inv (free_credential_from_user s uid).2 := by
  rcases hg : get_user s uid with _ | u
  · simpa [free_credential_from_user, hg] using hs
  rcases ha : u.assigned_username with _ | un
  · simpa [free_credential_from_user, hg, ha] using hs
  by_cases he : un = ""
  · simpa [free_credential_from_user, hg, ha, he] using hs
  have hstate : (free_credential_from_user s uid).2 =
      { users := s.users.map (fun v =>
          if v.user_id == uid then
            { v with assigned_username := none, assigned_password := none }
          else v),
        creds := s.creds.map (fun c =>
          if c.username == un then { c with status := "available" } else c) } := by
    simp [free_credential_from_user, hg, ha, he, update_credential_status]
  rw [hstate]
  have humem : u ∈ s.users := List.mem_of_find?_eq_some hg
  have huid : u.user_id = uid := by
    have := List.find?_some hg
    simpa using this
  obtain ⟨⟨hwu, hwc⟩, hone, havail, hheld⟩ := hs
  refine ⟨⟨?_, ?_⟩, ?_, ?_, ?_⟩
  · rw [map_key_eq (fun v => v.user_id)
      (fun v => if v.user_id == uid then
        { v with assigned_username := none, assigned_password := none } else v)
      (fun v => by by_cases h : v.user_id = uid <;> simp [h]) s.users]
    exact hwu
  · rw [map_key_eq (fun c => c.username)
      (fun c => if c.username == un then { c with status := "available" } else c)
      (fun c => by by_cases h : c.username = un <;> simp [h]) s.creds]
    exact hwc
  · intro u' hu' v' hv' hsome heq
    obtain ⟨a, hamem, hae⟩ := List.mem_map.mp hu'
    obtain ⟨b, hbmem, hbe⟩ := List.mem_map.mp hv'
    by_cases hai : a.user_id = uid
    · have h0 : u'.assigned_username = none := by rw [← hae]; simp [hai]
      rw [h0] at hsome
      simp at hsome
    · by_cases hbi : b.user_id = uid
      · have h0 : v'.assigned_username = none := by rw [← hbe]; simp [hbi]
        rw [h0] at heq
        rw [heq] at hsome
        simp at hsome
      · have hu'a : u' = a := by rw [← hae]; simp [hai]
        have hv'b : v' = b := by rw [← hbe]; simp [hbi]
        rw [hu'a, hv'b]
        exact hone a hamem b hbmem (by rw [← hu'a]; exact hsome)
          (by rw [← hu'a, ← hv'b]; exact heq)
  · intro c' hc' hcs u' hu'
    obtain ⟨c, hcmem, hce⟩ := List.mem_map.mp hc'
    obtain ⟨a, hamem, hae⟩ := List.mem_map.mp hu'
    by_cases hai : a.user_id = uid
    · have h0 : u'.assigned_username = none := by rw [← hae]; simp [hai]
      rw [h0]
      simp
    · have hu'a : u' = a := by rw [← hae]; simp [hai]
      by_cases hcu : c.username = un
      · have hcn : c'.username = un := by rw [← hce]; simp [hcu]
        rw [hu'a, hcn]
        intro hcontra
        have hu_some : u.assigned_username.isSome := by simp [ha]
        have huv : u = a := hone u humem a hamem hu_some (by rw [ha, hcontra])
        exact hai (by rw [← huv]; exact huid)
      · have hc'c : c' = c := by rw [← hce]; simp [hcu]
        rw [hu'a, hc'c]
        exact havail c hcmem (by rw [← hc'c]; exact hcs) a hamem
  · intro u' hu' hsome
    obtain ⟨a, hamem, hae⟩ := List.mem_map.mp hu'
    by_cases hai : a.user_id = uid
    · have h0 : u'.assigned_username = none := by rw [← hae]; simp [hai]
      rw [h0] at hsome
      simp at hsome
    · have hu'a : u' = a := by rw [← hae]; simp [hai]
      rw [hu'a] at hsome ⊢
      obtain ⟨c, hcmem, hcu, hcs⟩ := hheld a hamem hsome
      by_cases hcun : c.username = un
      · exfalso
        have haun : a.assigned_username = some un := by rw [← hcu, hcun]
        have hu_some : u.assigned_username.isSome := by simp [ha]
        have huv : u = a := hone u humem a hamem hu_some (by rw [ha, haun])
        exact hai (by rw [← huv]; exact huid)
      · exact ⟨c, List.mem_map.mpr ⟨c, hcmem, by simp [hcun]⟩, hcu, hcs⟩

/-- Adding a fresh available credential preserves the leasing invariant. -/
theorem inv_add (s : State) (now : Int) (un pw : String) (d : Int) (hs : Inv s) :
    Inv (add_credential_to_pool s now un pw d).2 := by
  by_cases hdup : s.creds.any (fun c => c.username == un)
  · simpa [add_credential_to_pool, hdup] using hs
  · have hnotin : ∀ c ∈ s.creds, c.username ≠ un := by
      intro c hc
      simp only [List.any_eq_true, beq_iff_eq] at hdup
      intro hcontra
      exact hdup ⟨c, hc, hcontra⟩
    have hstate : (add_credential_to_pool s now un pw d).2 =
        { users := s.users, creds := s.creds ++
          [{ username := un, password := pw, status := "available",
             credential_expiry_date := now + d * 86400 }] } := by
      simp [add_credential_to_pool, hdup]
    rw [hstate]
    obtain ⟨⟨hwu, hwc⟩, hone, havail, hheld⟩ := hs
    refine ⟨⟨hwu, ?_⟩, hone, ?_, ?_⟩
    · rw [List.map_append]
      rw [List.nodup_append]
      refine ⟨hwc, by simp, ?_⟩
      intro x hx hxu
      simp at hxu
      subst hxu
      obtain ⟨c, hc, hcu⟩ := List.mem_map.mp hx
      exact hnotin c hc hcu
    · intro c' hc' hcs u hu
      rcases List.mem_append.mp hc' with hold | hnew
      · exact havail c' hold hcs u hu
      · simp at hnew
        subst hnew
        intro hcontra
        have hsome : u.assigned_username.isSome := by rw [hcontra]; rfl
        obtain ⟨c0, hc0, hc0u, _⟩ := hheld u hu hsome
        rw [hcontra] at hc0u
        simp at hc0u
        exact hnotin c0 hc0 hc0u
    · intro u hu hsome
      obtain ⟨c, hc, hcu, hcs⟩ := hheld u hu hsome
      exact ⟨c, List.mem_append.mpr (Or.inl hc), hcu, hcs⟩

/-- The lazy user upsert preserves the leasing invariant. -/
theorem inv_upsert (s : State) (uid : Nat) (hs : Inv s) :
    Inv (add_or_get_user s uid).2 := by
  rcases hg : get_user s uid with _ | u
  · have hstate : (add_or_get_user s uid).2 =
        { users := s.users ++
          [{ user_id := uid, is_bot_use := false, plan_expiry_date := none,
             assigned_username := none, assigned_password := none }],
          creds := s.creds } := by
      simp [add_or_get_user, hg]
    rw [hstate]
    have hg' : s.users.find? (fun v => v.user_id == uid) = none := hg
    have hnotin : ∀ v ∈ s.users, v.user_id ≠ uid := by
      intro v hv
      have := List.find?_eq_none.mp hg' v hv
      simpa using this
    obtain ⟨⟨hwu, hwc⟩, hone, havail, hheld⟩ := hs
    refine ⟨⟨?_, hwc⟩, ?_, ?_, ?_⟩
    · rw [List.map_append]
      rw [List.nodup_append]
      refine ⟨hwu, by simp, ?_⟩
      intro x hx hxu
      simp at hxu
      subst hxu
      obtain ⟨v, hv, hvu⟩ := List.mem_map.mp hx
      exact hnotin v hv hvu
    · intro u' hu' v' hv' hsome heq
      rcases List.mem_append.mp hu' with h1 | h1
      · rcases List.mem_append.mp hv' with h2 | h2
        · exact hone u' h1 v' h2 hsome heq
        · simp at h2
          subst h2
          rw [heq] at hsome
          simp at hsome
      · simp at h1
        subst h1
        simp at hsome
    · intro c hc hcs u' hu'
      rcases List.mem_append.mp hu' with h1 | h1
      · exact havail c hc hcs u' h1
      · simp at h1
        subst h1
        simp
    · intro u' hu' hsome
      rcases List.mem_append.mp hu' with h1 | h1
      · exact hheld u' h1 hsome
      · simp at h1
        subst h1
        simp at hsome
  · simpa [add_or_get_user, hg] using hs

/-- Editing a credential preserves the leasing invariant. -/
theorem inv_edit (s : State) (now : Int) (un pw : String) (d : Int) (hs : Inv s) :
    Inv (edit_credential_in_pool s now un pw d).2 := by
  rcases hg : get_credential s un with _ | c0
  · simpa [edit_credential_in_pool, hg] using hs
  · have hstate : (edit_credential_in_pool s now un pw d).2 =
        { s with creds := s.creds.map (fun c =>
            if c.username == un then
              { c with password := pw, credential_expiry_date := now + d * 86400 }
            else c) } := by
      simp [edit_credential_in_pool, hg]
    rw [hstate]
    exact inv_creds_map s _
      (fun c => by by_cases h : c.username = un <;> simp [h])
      (fun c => by by_cases h : c.username = un <;> simp [h]) hs

/-- The grant handler preserves the leasing invariant. -/
theorem inv_permit (s : State) (now : Int) (uid : Nat) (d : Int) (hs : Inv s) :
    Inv (permit_bot_use s now uid d).2 := by
  rcases hg : get_user s uid with _ | u
  · simpa [permit_bot_use, hg] using hs
  rcases hc : get_available_credential s now d with _ | cred
  · simpa [permit_bot_use, hg, hc] using hs
  have hstate : (permit_bot_use s now uid d).2 =
      grant_user_access (assign_credential_to_user s uid cred) now uid d := by
    simp [permit_bot_use, hg, hc]
  rw [hstate]
  unfold get_available_credential at hc
  have hmem0 := pickMinExpiry_mem hc
  rw [List.mem_filter] at hmem0
  obtain ⟨hcm, hcp⟩ := hmem0
  simp only [Bool.and_eq_true, beq_iff_eq, decide_eq_true_eq] at hcp
  exact inv_users_map _ _
    (fun v => by by_cases h : v.user_id = uid <;> simp [h])
    (fun v => by by_cases h : v.user_id = uid <;> simp [h])
    (inv_assign s uid cred hcm hcp.1 hs)

/-- The manual free handler preserves the leasing invariant. -/
theorem inv_free_handler (s : State) (uid : Nat) (hs : Inv s) :
    Inv (free_credential s uid).2 := by
  rcases hfr : free_credential_from_user s uid with ⟨o, s2⟩
  have hs2 : Inv s2 := by
    have := inv_free_core s uid hs
    rw [hfr] at this
    exact this
  rcases o with _ | un
  · simpa [free_credential, hfr] using hs2
  · have hstate : (free_credential s uid).2 = revoke_user_access s2 uid := by
      simp [free_credential, hfr]
    rw [hstate]
    exact inv_users_map s2 _
      (fun v => by by_cases h : v.user_id = uid <;> simp [h])
      (fun v => by by_cases h : v.user_id = uid <;> simp [h]) hs2

/-- The v1 scheduled cleanup preserves the leasing invariant. -/
theorem inv_cleanup1 (s : State) (uid : Nat) (hs : Inv s) :
    Inv (run_cleanup_v1 s uid).2 := by
  rcases hfr : free_credential_from_user s uid with ⟨o, s2⟩
  have hs2 : Inv s2 := by
    have := inv_free_core s uid hs
    rw [hfr] at this
    exact this
  rcases o with _ | un
  · simpa [run_cleanup_v1, hfr] using hs2
  · have hstate : (run_cleanup_v1 s uid).2 = revoke_user_access s2 uid := by
      simp [run_cleanup_v1, hfr]
    rw [hstate]
    exact inv_users_map s2 _
      (fun v => by by_cases h : v.user_id = uid <;> simp [h])
      (fun v => by by_cases h : v.user_id = uid <;> simp [h]) hs2

/-- The v2 scheduled cleanup preserves the leasing invariant. -/
theorem inv_cleanup2 (s : State) (uid : Nat) (hs : Inv s) :
    Inv (run_cleanup_v2 s uid).2 := by
  rcases hfr : free_credential_from_user s uid with ⟨o, s2⟩
  have hs2 : Inv s2 := by
    have := inv_free_core s uid hs
    rw [hfr] at this
    exact this
  have hrv : Inv (revoke_user_access s2 uid) :=
    inv_users_map s2 _
      (fun v => by by_cases h : v.user_id = uid <;> simp [h])
      (fun v => by by_cases h : v.user_id = uid <;> simp [h]) hs2
  rcases o with _ | un
  · have hstate : (run_cleanup_v2 s uid).2 = revoke_user_access s2 uid := by
      simp [run_cleanup_v2, hfr]
    rw [hstate]
    exact hrv
  · have hstate : (run_cleanup_v2 s uid).2 = revoke_user_access s2 uid := by
      simp [run_cleanup_v2, hfr]
    rw [hstate]
    exact hrv

/-- Every handler invocation preserves the leasing invariant. -/
theorem inv_step (t : Int) (s : State) (op : Op) (hs : Inv s) : Inv (step t s op) := by
  cases op with
  | addCred un pw d => exact inv_add s t un pw d hs
  | editCred un pw d => exact inv_edit s t un pw d hs
  | grantOp uid d => exact inv_permit s t uid d hs
  | revokeOp uid =>
    exact inv_users_map s _
      (fun v => by by_cases h : v.user_id = uid <;> simp [h])
      (fun v => by by_cases h : v.user_id = uid <;> simp [h]) hs
  | freeOp uid => exact inv_free_handler s uid hs
  | cleanup1Op uid => exact inv_cleanup1 s uid hs
  | cleanup2Op uid => exact inv_cleanup2 s uid hs
  | upsertOp uid => exact inv_upsert s uid hs

/-- A credential-table rewrite that preserves usernames and never moves a
row named `un` out of `in_use` preserves `CredHeld`. -/
theorem credheld_map (s : State) (un : String) (k : Cred → Cred)
    (hun : ∀ c, (k c).username = c.username)
    (hst : ∀ c, c.username = un → (k c).status = "in_use" ∨ (k c).status = c.status)
    (h : CredHeld s un) : CredHeld { s with creds := s.creds.map k } un := by
  obtain ⟨⟨c0, hc0, hc0u⟩, hall⟩ := h
  constructor
  · exact ⟨k c0, List.mem_map.mpr ⟨c0, hc0, rfl⟩, by rw [hun]; exact hc0u⟩
  · intro c' hc' hcu
    obtain ⟨c, hc, hck⟩ := List.mem_map.mp hc'
    have hcun : c.username = un := by rw [← hun c, hck]; exact hcu
    rcases hst c hcun with h1 | h1
    · rw [← hck]
      exact h1
    · rw [← hck, h1]
      exact hall c hc hcun

/-- A free request that does not target a holder of `un` preserves `CredHeld`. -/
theorem credheld_free_core (s : State) (uid : Nat) (un : String)
    (h : CredHeld s un)
    (hnf : (match get_user s uid with
            | some u => u.assigned_username == some un && un != ""
            | none => false) = false) :
    CredHeld (free_credential_from_user s uid).2 un := by
  rcases hg : get_user s uid with _ | u
  · simpa [free_credential_from_user, hg] using h
  rcases ha : u.assigned_username with _ | un2
  · simpa [free_credential_from_user, hg, ha] using h
  by_cases he : un2 = ""
  · simpa [free_credential_from_user, hg, ha, he] using h
  have hneq : un2 ≠ un := by
    intro hcontra
    subst hcontra
    rw [hg] at hnf
    simp [ha] at hnf
    exact he hnf
  have hstate : (free_credential_from_user s uid).2 =
      { users := s.users.map (fun v =>
          if v.user_id == uid then
            { v with assigned_username := none, assigned_password := none }
          else v),
        creds := s.creds.map (fun c =>
          if c.username == un2 then { c with status := "available" } else c) } := by
    simp [free_credential_from_user, hg, ha, he, update_credential_status]
  rw [hstate]
  exact credheld_map s un _
    (fun c => by by_cases hh : c.username = un2 <;> simp [hh])
    (fun c hcn => Or.inr (by
      have hcc : c.username ≠ un2 := by rw [hcn]; exact fun hh => hneq hh.symm
      simp [hcc])) h

/-- One handler invocation that does not free `un` keeps every pooled row
named `un` present and `in_use`. -/
theorem credheld_step (t : Int) (s : State) (op : Op) (un : String)
    (h : CredHeld s un) (hnf : opFrees s op un = false) :
    CredHeld (step t s op) un := by
  cases op with
  | addCred un' pw d =>
    show CredHeld (add_credential_to_pool s t un' pw d).2 un
    by_cases hdup : s.creds.any (fun c => c.username == un')
    · simpa [add_credential_to_pool, hdup] using h
    · have hneq : un' ≠ un := by
        intro hcontra
        subst hcontra
        obtain ⟨⟨c0, hc0, hc0u⟩, _⟩ := h
        simp only [List.any_eq_true, beq_iff_eq] at hdup
        exact hdup ⟨c0, hc0, hc0u⟩
      have hstate : (add_credential_to_pool s t un' pw d).2 =
          { users := s.users, creds := s.creds ++
            [{ username := un', password := pw, status := "available",
               credential_expiry_date := t + d * 86400 }] } := by
        simp [add_credential_to_pool, hdup]
      rw [hstate]
      obtain ⟨⟨c0, hc0, hc0u⟩, hall⟩ := h
      refine ⟨⟨c0, List.mem_append.mpr (Or.inl hc0), hc0u⟩, ?_⟩
      intro c' hc' hcu
      rcases List.mem_append.mp hc' with h1 | h1
      · exact hall c' h1 hcu
      · simp at h1
        subst h1
        simp at hcu
        exact absurd hcu hneq
  | editCred un' pw d =>
    show CredHeld (edit_credential_in_pool s t un' pw d).2 un
    rcases hg : get_credential s un' with _ | c0
    · simpa [edit_credential_in_pool, hg] using h
    · have hstate : (edit_credential_in_pool s t un' pw d).2 =
          { s with creds := s.creds.map (fun c =>
              if c.username == un' then
                { c with password := pw, credential_expiry_date := t + d * 86400 }
              else c) } := by
        simp [edit_credential_in_pool, hg]
      rw [hstate]
      exact credheld_map s un _
        (fun c => by by_cases hh : c.username = un' <;> simp [hh])
        (fun c _ => Or.inr (by by_cases hh : c.username = un' <;> simp [hh])) h
  | grantOp uid d =>
    show CredHeld (permit_bot_use s t uid d).2 un
    rcases hg : get_user s uid with _ | u
    · simpa [permit_bot_use, hg] using h
    rcases hc : get_available_credential s t d with _ | cred
    · simpa [permit_bot_use, hg, hc] using h
    have hstate : (permit_bot_use s t uid d).2 =
        grant_user_access (assign_credential_to_user s uid cred) t uid d := by
      simp [permit_bot_use, hg, hc]
    rw [hstate]
    exact credheld_map s un _
      (fun c => by by_cases hh : c.username = cred.username <;> simp [hh])
      (fun c _ => by
        by_cases hh : c.username = cred.username
        · exact Or.inl (by simp [hh])
        · exact Or.inr (by simp [hh])) h
  | revokeOp uid =>
    exact h
  | freeOp uid =>
    show CredHeld (free_credential s uid).2 un
    have hcore := credheld_free_core s uid un h hnf
    rcases hfr : free_credential_from_user s uid with ⟨o, s2⟩
    rw [hfr] at hcore
    rcases o with _ | un2
    · simpa [free_credential, hfr] using hcore
    · have hstate : (free_credential s uid).2 = revoke_user_access s2 uid := by
        simp [free_credential, hfr]
      rw [hstate]
      exact hcore
  | cleanup1Op uid =>
    show CredHeld (run_cleanup_v1 s uid).2 un
    have hcore := credheld_free_core s uid un h hnf
    rcases hfr : free_credential_from_user s uid with ⟨o, s2⟩
    rw [hfr] at hcore
    rcases o with _ | un2
    · simpa [run_cleanup_v1, hfr] using hcore
    · have hstate : (run_cleanup_v1 s uid).2 = revoke_user_access s2 uid := by
        simp [run_cleanup_v1, hfr]
      rw [hstate]
      exact hcore
  | cleanup2Op uid =>
    show CredHeld (run_cleanup_v2 s uid).2 un
    have hcore := credheld_free_core s uid un h hnf
    rcases hfr : free_credential_from_user s uid with ⟨o, s2⟩
    rw [hfr] at hcore
    rcases o with _ | un2
    · have hstate : (run_cleanup_v2 s uid).2 = revoke_user_access s2 uid := by
        simp [run_cleanup_v2, hfr]
      rw [hstate]
      exact hcore
    · have hstate : (run_cleanup_v2 s uid).2 = revoke_user_access s2 uid := by
        simp [run_cleanup_v2, hfr]
      rw [hstate]
      exact hcore
  | upsertOp uid =>
    show CredHeld (add_or_get_user s uid).2 un
    rcases hg : get_user s uid with _ | u
    · have hstate : (add_or_get_user s uid).2 =
          { users := s.users ++
            [{ user_id := uid, is_bot_use := false, plan_expiry_date := none,
               assigned_username := none, assigned_password := none }],
            creds := s.creds } := by
        simp [add_or_get_user, hg]
      rw [hstate]
      exact h
    · simpa [add_or_get_user, hg] using h

/-- A whole trace that never frees `un` keeps every pooled row named `un`
present and `in_use`. -/
theorem credheld_trace : ∀ (tr : List (Int × Op)) (s : State) (un : String),
    CredHeld s un → neverFrees s un tr = true → CredHeld (execTrace s tr) un := by
  intro tr
  induction tr with
  | nil => intro s un h _; exact h
  | cons p rest ih =>
    intro s un h hnf
    rcases p with ⟨t, op⟩
    simp only [neverFrees, Bool.and_eq_true] at hnf
    obtain ⟨h1, h2⟩ := hnf
    have h1' : opFrees s op un = false := by simpa using h1
    exact ih (step t s op) un (credheld_step t s op un h h1') h2

/-- The best-fit lookup never returns a credential whose pooled rows are all
`in_use`. -/
theorem find_excludes_held (s : State) (un : String) (now d : Int) (c : Cred)
    (hheld : CredHeld s un) (h : get_available_credential s now d = some c) :
    c.username ≠ un := by
  unfold get_available_credential at h
  have hm := pickMinExpiry_mem h
  rw [List.mem_filter] at hm
  obtain ⟨hmem, hp⟩ := hm
  simp only [Bool.and_eq_true, beq_iff_eq, decide_eq_true_eq] at hp
  intro hcontra
  have := hheld.2 c hmem hcontra
  rw [this] at hp
  exact absurd hp.1 (by decide)

/-- Assigning a pooled credential makes every row carrying its username
`in_use`. -/
theorem assign_credheld (s : State) (uid : Nat) (cred : Cred) (hc : cred ∈ s.creds) :
    CredHeld (assign_credential_to_user s uid cred) cred.username := by
  have hcreq : (assign_credential_to_user s uid cred).creds =
      s.creds.map (fun c =>
        if c.username == cred.username then { c with status := "in_use" } else c) := by
    simp [assign_credential_to_user, update_credential_status]
  constructor
  · refine ⟨{ cred with status := "in_use" }, ?_, rfl⟩
    rw [hcreq]
    exact List.mem_map.mpr ⟨cred, hc, by simp⟩
  · intro c' hc' hcu
    rw [hcreq] at hc'
    obtain ⟨c, hcm, hck⟩ := List.mem_map.mp hc'
    by_cases h : c.username = cred.username
    · rw [← hck]
      simp [h]
    · rw [← hck] at hcu
      simp [h] at hcu

/-- C3: after `Assign(u, c)`, every pooled row named `c.username` is
`in_use`; along any subsequent trace of handler invocations that never frees
it, `get_available_credential` can never return a credential with that
username; and every handler invocation preserves the no-double-booking
invariant (unique keys, at most one holder per username, available
credentials unheld, held usernames `in_use` in the pool). -/
theorem C3_assign_no_double_booking
    (s t0 : State) (uid : Nat) (c c2 : Cred) (now2 d2 t1 : Int)
    (tr : List (Int × Op)) (op0 : Op)
    (hc : c ∈ s.creds)
    (htr : neverFrees (assign_credential_to_user s uid c) c.username tr = true)
    (hfind : get_available_credential
      (execTrace (assign_credential_to_user s uid c) tr) now2 d2 = some c2)
    (hInv : Inv t0) :
    (∀ c3 ∈ (assign_credential_to_user s uid c).creds,
      c3.username = c.username → c3.status = "in_use") ∧
    c2.username ≠ c.username ∧
    Inv (step t1 t0 op0) := by
  have hheld := assign_credheld s uid c hc
  exact ⟨hheld.2,
    find_excludes_held _ _ now2 d2 c2
      (credheld_trace tr _ _ hheld htr) hfind,
    inv_step t1 t0 op0 hInv⟩

/-- Witness for C3: assign credential A to user 1, run a revoke step, and
observe that the best-fit lookup now returns B, never A; the invariant also
survives a concrete step. -/
theorem C3_witness :
    neverFrees
      (assign_credential_to_user
        ⟨[{ user_id := 1, is_bot_use := false, plan_expiry_date := none,
            assigned_username := none, assigned_password := none }],
         [{ username := "A", password := "pa", status := "available",
            credential_expiry_date := 864000 },
          { username := "B", password := "pb", status := "available",
            credential_expiry_date := 1728000 }]⟩ 1
        { username := "A", password := "pa", status := "available",
          credential_expiry_date := 864000 }) "A" [(0, Op.revokeOp 1)] = true ∧
    get_available_credential
      (execTrace
        (assign_credential_to_user
          ⟨[{ user_id := 1, is_bot_use := false, plan_expiry_date := none,
              assigned_username := none, assigned_password := none }],
           [{ username := "A", password := "pa", status := "available",
              credential_expiry_date := 864000 },
            { username := "B", password := "pb", status := "available",
              credential_expiry_date := 1728000 }]⟩ 1
          { username := "A", password := "pa", status := "available",
            credential_expiry_date := 864000 }) [(0, Op.revokeOp 1)]) 0 0 =
      some { username := "B", password := "pb", status := "available",
             credential_expiry_date := 1728000 } ∧
    ("B" : String) ≠ "A" ∧
    Inv (step 0 (⟨[], []⟩ : State) (Op.upsertOp 9)) :=
  ⟨by decide, by decide,
   (C3_assign_no_double_booking
      ⟨[{ user_id := 1, is_bot_use := false, plan_expiry_date := none,
          assigned_username := none, assigned_password := none }],
       [{ username := "A", password := "pa", status := "available",
          credential_expiry_date := 864000 },
        { username := "B", password := "pb", status := "available",
          credential_expiry_date := 1728000 }]⟩
      ⟨[], []⟩ 1
      { username := "A", password := "pa", status := "available",
        credential_expiry_date := 864000 }
      { username := "B", password := "pb", status := "available",
        credential_expiry_date := 1728000 }
      0 0 0 [(0, Op.revokeOp 1)] (Op.upsertOp 9)
      (by decide) (by decide) (by decide)
      (by unfold Inv Wf AtMostOneHolder AvailNoHolder HeldInUse; decide)).2.1,
   (C3_assign_no_double_booking
      ⟨[{ user_id := 1, is_bot_use := false, plan_expiry_date := none,
          assigned_username := none, assigned_password := none }],
       [{ username := "A", password := "pa", status := "available",
          credential_expiry_date := 864000 },
        { username := "B", password := "pb", status := "available",
          credential_expiry_date := 1728000 }]⟩
      ⟨[], []⟩ 1
      { username := "A", password := "pa", status := "available",
        credential_expiry_date := 864000 }
      { username := "B", password := "pb", status := "available",
        credential_expiry_date := 1728000 }
      0 0 0 [(0, Op.revokeOp 1)] (Op.upsertOp 9)
      (by decide) (by decide) (by decide)
      (by unfold Inv Wf AtMostOneHolder AvailNoHolder HeldInUse; decide)).2.2⟩

end ChessBot
